import Mathlib

/-!
# Verification of the Security-Automation repository

Shallow embedding of the Python sources `server.py`, `port_scanner.py` and
`password_analyzer.py`, together with theorems settling the specification
claims about them.

Conventions of the embedding:
* byte strings (`bytes`) are `List Nat` with every element `< 256`;
* decoded text is a `List Nat` of Unicode code points (Python `str` is a
  sequence of code points); where a theorem quantifies over messages it uses
  `List Char`, whose values are exactly the valid Unicode scalar values;
* fallible Python code is embedded with `Except`: a `.error` value is an
  exception that escaped the embedded fragment.
-/

namespace SecurityAutomation

/-! ## Python text primitives

`str.strip()` with no argument removes the Unicode whitespace code points
from both ends.  The set below is the exact set recognised by CPython's
`str.isspace`/`str.strip`. -/

def isPySpace (n : Nat) : Bool :=
  decide ((9 ≤ n ∧ n ≤ 13) ∨ (28 ≤ n ∧ n ≤ 32) ∨ n = 133 ∨ n = 160 ∨ n = 5760 ∨
    (8192 ≤ n ∧ n ≤ 8202) ∨ n = 8232 ∨ n = 8233 ∨ n = 8239 ∨ n = 8287 ∨ n = 12288)

/-- Python `str.strip()` on a list of code points. -/
def pyStrip (l : List Nat) : List Nat :=
  ((l.dropWhile isPySpace).reverse.dropWhile isPySpace).reverse

/-- The code points of a Lean string fragment, i.e. the Python `str` value. -/
def toScalars (s : List Char) : List Nat := s.map Char.toNat

/-! ## UTF-8 codec

`str.encode()` produces the UTF-8 encoding; `bytes.decode(errors="replace")`
decodes UTF-8, substituting U+FFFD for each maximal invalid subpart instead
of raising.  Both are embedded below; the encoder is written with `/` and `%`
(equivalent to the shift/mask formulation). -/

def utf8EncodeChar (v : Nat) : List Nat :=
  if v < 0x80 then [v]
  else if v < 0x800 then [0xC0 + v / 64, 0x80 + v % 64]
  else if v < 0x10000 then [0xE0 + v / 4096, 0x80 + v / 64 % 64, 0x80 + v % 64]
  else [0xF0 + v / 262144, 0x80 + v / 4096 % 64, 0x80 + v / 64 % 64, 0x80 + v % 64]

def utf8EncodeScalars : List Nat → List Nat
  | [] => []
  | v :: t => utf8EncodeChar v ++ utf8EncodeScalars t

/-- One step of the WHATWG / CPython UTF-8 decoder with replacement.
`fuel` only bounds the recursion; any `fuel ≥` the number of decoded code
points gives the same answer, and each step consumes at least one byte, so
`fuel = length of the input` always suffices. -/
def utf8DecodeAux : Nat → List Nat → List Nat
  | 0, _ => []
  | _ + 1, [] => []
  | fuel + 1, b0 :: rest =>
    if b0 < 0x80 then b0 :: utf8DecodeAux fuel rest
    else if 0xC2 ≤ b0 ∧ b0 ≤ 0xDF then
      match rest with
      | b1 :: rest2 =>
        if 0x80 ≤ b1 ∧ b1 < 0xC0 then
          ((b0 - 0xC0) * 64 + (b1 - 0x80)) :: utf8DecodeAux fuel rest2
        else 0xFFFD :: utf8DecodeAux fuel rest
      | [] => [0xFFFD]
    else if 0xE0 ≤ b0 ∧ b0 ≤ 0xEF then
      match rest with
      | b1 :: rest2 =>
        if (if b0 = 0xE0 then 0xA0 ≤ b1 ∧ b1 < 0xC0
            else if b0 = 0xED then 0x80 ≤ b1 ∧ b1 < 0xA0
            else 0x80 ≤ b1 ∧ b1 < 0xC0) then
          match rest2 with
          | b2 :: rest3 =>
            if 0x80 ≤ b2 ∧ b2 < 0xC0 then
              ((b0 - 0xE0) * 4096 + (b1 - 0x80) * 64 + (b2 - 0x80)) ::
                utf8DecodeAux fuel rest3
            else 0xFFFD :: utf8DecodeAux fuel rest2
          | [] => [0xFFFD]
        else 0xFFFD :: utf8DecodeAux fuel rest
      | [] => [0xFFFD]
    else if 0xF0 ≤ b0 ∧ b0 ≤ 0xF4 then
      match rest with
      | b1 :: rest2 =>
        if (if b0 = 0xF0 then 0x90 ≤ b1 ∧ b1 < 0xC0
            else if b0 = 0xF4 then 0x80 ≤ b1 ∧ b1 < 0x90
            else 0x80 ≤ b1 ∧ b1 < 0xC0) then
          match rest2 with
          | b2 :: rest3 =>
            if 0x80 ≤ b2 ∧ b2 < 0xC0 then
              match rest3 with
              | b3 :: rest4 =>
                if 0x80 ≤ b3 ∧ b3 < 0xC0 then
                  ((b0 - 0xF0) * 262144 + (b1 - 0x80) * 4096 + (b2 - 0x80) * 64 +
                    (b3 - 0x80)) :: utf8DecodeAux fuel rest4
                else 0xFFFD :: utf8DecodeAux fuel rest3
              | [] => [0xFFFD]
            else 0xFFFD :: utf8DecodeAux fuel rest2
          | [] => [0xFFFD]
        else 0xFFFD :: utf8DecodeAux fuel rest
      | [] => [0xFFFD]
    else 0xFFFD :: utf8DecodeAux fuel rest

/-- `bytes.decode(errors="replace")`: total, never raises. -/
def utf8DecodeRepl (bs : List Nat) : List Nat := utf8DecodeAux bs.length bs

/-! ## `server.py` — the connection handler

`handle_client(conn, addr)` runs, inside `with conn:`, the loop

```
conn.settimeout(10.0)
try:
    while True:
        data = conn.recv(1024)
        if not data: break
        message = data.decode(errors="replace").strip()
        response = f"ACK: {message}\n".encode()
        conn.sendall(response)
except socket.timeout: ...
except Exception as e: ...
```

Each loop iteration is driven by the outcome of its `recv` (and, when data
arrives, of the `sendall`); a run of the handler is a finite trace of such
outcomes.  Each `recv` returns at most 1024 bytes; the embedding takes the
bytes of each read as given by the trace. -/

inductive ConnEvent where
  /-- `recv` returns `bs` (possibly `b""` = orderly peer close);
  the subsequent `sendall`, if any, succeeds. -/
  | recv (bs : List Nat)
  /-- `recv` returns the non-empty `bs` but `sendall` raises an `OSError`. -/
  | recvSendFail (bs : List Nat)
  /-- `recv` raises `socket.timeout` (idle timeout expired). -/
  | recvTimeout
  /-- `recv` raises some other `OSError`. -/
  | recvError
  deriving DecidableEq, Repr

inductive PyError where
  | socketTimeout
  | osError
  deriving DecidableEq, Repr

/-- The scalars of the literal `"ACK: "` prefix. -/
def ackScalars : List Nat := [65, 67, 75, 58, 32]

/-- `f"ACK: {message}\n".encode()` for a decoded, stripped `message`. -/
def ackResponse (message : List Nat) : List Nat :=
  utf8EncodeScalars (ackScalars ++ message ++ [10])

/-- How the handler loop ended, if it did. -/
inductive LoopEnd where
  /-- `break` after a zero-byte read. -/
  | peerClosed
  /-- The trace is exhausted with the loop still blocked in `recv`. -/
  | running
  deriving DecidableEq, Repr

/-- The `while True:` loop of `handle_client`, without the `try/except`:
returns the responses sent (in send order) and either a normal loop end or
the exception that escaped the loop. -/
def clientLoop : List ConnEvent → List (List Nat) × Except PyError LoopEnd
  | [] => ([], .ok .running)
  | e :: rest =>
    match e with
    | .recv [] => ([], .ok .peerClosed)
    | .recv bs =>
      let response := ackResponse (pyStrip (utf8DecodeRepl bs))
      let r := clientLoop rest
      (response :: r.1, r.2)
    | .recvSendFail _ => ([], .error .osError)
    | .recvTimeout => ([], .error .socketTimeout)
    | .recvError => ([], .error .osError)

/-- The response a successful iteration sends for its event (`[]` for
events that send nothing). -/
def responseTo : ConnEvent → List Nat
  | .recv bs => ackResponse (pyStrip (utf8DecodeRepl bs))
  | _ => []

inductive HandlerOutcome where
  /-- Loop exited normally on a zero-byte read. -/
  | peerClosed
  /-- `except socket.timeout` branch taken. -/
  | timedOut
  /-- `except Exception` branch taken. -/
  | errored
  /-- The trace is exhausted with the handler still running. -/
  | running
  deriving DecidableEq, Repr

structure HandlerResult where
  /-- Responses sent on the connection, in send order. -/
  sent : List (List Nat)
  outcome : HandlerOutcome
  /-- Whether `with conn:` has closed the connection socket
  (true exactly when the handler has returned). -/
  connClosed : Bool
  deriving DecidableEq, Repr

/-- `handle_client`: the loop wrapped in `try/except socket.timeout /
except Exception` and in `with conn:` (which closes the socket on every
way out of the block).  The result is `.error` only if an exception
escapes the function — the claims assert this never happens. -/
def handle_client (events : List ConnEvent) : Except PyError HandlerResult :=
  match (clientLoop events).2 with
  | .ok .peerClosed => .ok ⟨(clientLoop events).1, .peerClosed, true⟩
  | .ok .running => .ok ⟨(clientLoop events).1, .running, false⟩
  | .error .socketTimeout => .ok ⟨(clientLoop events).1, .timedOut, true⟩
  | .error .osError => .ok ⟨(clientLoop events).1, .errored, true⟩

/-! ## `server.py` — the listener loop

`serve(host, port)` binds and listens inside `with socket(...) as s:`, sets a
1-second accept timeout, and runs

```
while not STOP:
    try: conn, addr = s.accept()
    except socket.timeout: continue
    except OSError as e: log(e); continue
    threading.Thread(target=handle_client, args=(conn, addr), daemon=True).start()
```

Each iteration first observes the `STOP` flag and then, if the flag was
false, gets one accept outcome.  A run of the loop is a finite trace of
`(observed flag, accept outcome)` pairs; connections are identified by a
numeric id. -/

inductive AcceptEvent where
  /-- `s.accept()` returns connection `c`. -/
  | incoming (c : Nat)
  /-- `s.accept()` raises `socket.timeout` (poll interval elapsed). -/
  | timeout
  /-- `s.accept()` raises another `OSError`: logged, loop continues. -/
  | acceptError
  deriving DecidableEq, Repr

/-- The connection an accept outcome delivers, if any. -/
def acceptedConn : AcceptEvent → Option Nat
  | .incoming c => some c
  | _ => none

structure ServeResult where
  /-- Connections accepted and handed to handler threads, in accept order. -/
  accepted : List Nat
  /-- Whether the loop exited by observing the shutdown flag true. -/
  exited : Bool
  /-- Whether `with ... as s:` has closed the listening socket
  (true exactly when `serve` has returned). -/
  socketClosed : Bool
  deriving DecidableEq, Repr

/-- The accept loop of `serve`, driven by a trace of flag observations and
accept outcomes. -/
def serveRun : List (Bool × AcceptEvent) → ServeResult
  | [] => ⟨[], false, false⟩
  | (stop, ev) :: rest =>
    if stop then ⟨[], true, true⟩
    else
      match ev with
      | .incoming c =>
        let r := serveRun rest
        ⟨c :: r.accepted, r.exited, r.socketClosed⟩
      | .timeout => serveRun rest
      | .acceptError => serveRun rest

/-- The outcome of `s.bind((host, port)); s.listen(5)` at startup. -/
inductive BindOutcome where
  | ok
  /-- `bind`/`listen` raised an `OSError` (address in use, permission
  denied, ...). -/
  | failure (errno : Nat)
  deriving DecidableEq, Repr

/-- `serve(host, port)`: a bind failure raises out of `serve` (nothing in
`serve` or `main` catches it); otherwise the accept loop runs. -/
def serve (b : BindOutcome) (trace : List (Bool × AcceptEvent)) :
    Except Nat ServeResult :=
  match b with
  | .ok => .ok (serveRun trace)
  | .failure e => .error e

/-- The process exit status of `python server.py`: `main` installs the
signal handler and calls `serve`; a clean return exits with status 0, an
uncaught exception makes the interpreter exit with status 1. -/
def serverExitCode (b : BindOutcome) (trace : List (Bool × AcceptEvent)) : Nat :=
  match serve b trace with
  | .ok _ => 0
  | .error _ => 1

/-! ## `server.py` — process-level transition system

State of the whole process: the `STOP` flag, whether the `serve` loop is
still running, whether the listening socket is closed, which handler
threads are alive, and whether the process itself is alive.  The events are
the atomic steps the source can take:

* `handle_sigint` (lines 18–21) sets `STOP = True`;
* an accept-loop iteration either spawns a handler thread
  (`threading.Thread(..., daemon=True).start()`, line 43), idles, or logs
  an accept error;
* the `while not STOP` check observing the flag true exits the loop and the
  `with` block closes the listening socket;
* a handler thread finishes on its own (peer close, idle timeout, error);
* after `serve` returns, `main` returns and the process exits — CPython
  then terminates all still-running daemon threads abruptly. -/

structure SysState where
  stop : Bool
  serving : Bool
  listenerClosed : Bool
  /-- Ids of the live handler threads. -/
  active : List Nat
  processAlive : Bool
  deriving DecidableEq, Repr

inductive SysEvent where
  /-- SIGINT delivered: `handle_sigint` runs. -/
  | sigint
  /-- Loop iteration observes `STOP` false and `accept` returns a
  connection: a daemon handler thread `id` is spawned. -/
  | acceptConn (id : Nat)
  /-- Loop iteration observes `STOP` false and `accept` times out. -/
  | pollTick
  /-- Loop iteration observes `STOP` false and `accept` raises an
  `OSError`: logged, loop continues. -/
  | acceptErr
  /-- `while not STOP` observes the flag true: loop exits, `with` closes
  the listening socket. -/
  | observeStop
  /-- Handler thread `id` terminates on its own. -/
  | handlerDone (id : Nat)
  /-- `main` returns after `serve`; the process exits and all daemon
  handler threads are terminated with it. -/
  | processExit
  deriving DecidableEq, Repr

def isSigint : SysEvent → Bool
  | .sigint => true
  | _ => false

def sysStep (s : SysState) (e : SysEvent) : SysState :=
  match e with
  | .sigint => { s with stop := true }
  | .acceptConn id =>
    if s.serving ∧ s.stop = false ∧ s.processAlive then
      { s with active := id :: s.active }
    else s
  | .pollTick => s
  | .acceptErr => s
  | .observeStop =>
    if s.serving ∧ s.stop then
      { s with serving := false, listenerClosed := true }
    else s
  | .handlerDone id =>
    if s.processAlive then { s with active := s.active.erase id } else s
  | .processExit =>
    if s.serving = false ∧ s.processAlive then
      { s with processAlive := false, active := [] }
    else s

/-- `STOP = False` at module load; the loop is entered with the listener
open, no handler running. -/
def initState : SysState := ⟨false, true, false, [], true⟩

/-- Run a sequence of process events. -/
def sysRun (s : SysState) (es : List SysEvent) : SysState := es.foldl sysStep s

/-! ## `port_scanner.py` — `parse_ports` -/

/-- Python `str.split(",")`: split at every comma, keeping empty parts. -/
def splitComma : List Char → List (List Char)
  | [] => [[]]
  | c :: t =>
    if c = ',' then [] :: splitComma t
    else
      match splitComma t with
      | [] => [[c]]
      | h :: r => (c :: h) :: r

def isPySpaceChar (c : Char) : Bool := isPySpace c.toNat

/-- Python `str.strip()` on characters. -/
def pyStripChars (l : List Char) : List Char :=
  ((l.dropWhile isPySpaceChar).reverse.dropWhile isPySpaceChar).reverse

/-- The zero characters of every decade of Unicode decimal digits
(general category `Nd`, Unicode 14.0, the table of the CPython running the
source): each `z` starts a run `z..z+9` of characters with decimal values
`0..9`. -/
def ndZeroPoints : List Nat :=
  [0x30, 0x660, 0x6F0, 0x7C0, 0x966, 0x9E6, 0xA66, 0xAE6, 0xB66, 0xBE6,
   0xC66, 0xCE6, 0xD66, 0xDE6, 0xE50, 0xED0, 0xF20, 0x1040, 0x1090, 0x17E0,
   0x1810, 0x1946, 0x19D0, 0x1A80, 0x1A90, 0x1B50, 0x1BB0, 0x1C40, 0x1C50,
   0xA620, 0xA8D0, 0xA900, 0xA9D0, 0xA9F0, 0xAA50, 0xABF0, 0xFF10, 0x104A0,
   0x10D30, 0x11066, 0x110F0, 0x11136, 0x111D0, 0x112F0, 0x11450, 0x114D0,
   0x11650, 0x116C0, 0x11730, 0x118E0, 0x11950, 0x11C50, 0x11D50, 0x11DA0,
   0x16A60, 0x16AC0, 0x16B50, 0x1D7CE, 0x1D7D8, 0x1D7E2, 0x1D7EC, 0x1D7F6,
   0x1E140, 0x1E2F0, 0x1E950, 0x1FBF0]

/-- The decimal value of a Unicode decimal-digit (`Nd`) character, if it
is one.  The `Nd` characters are exactly those `int()` accepts as digits,
and exactly those the `re` pattern `\d` matches on `str`. -/
def digitVal? (c : Char) : Option Nat :=
  (ndZeroPoints.find? fun z => decide (z ≤ c.toNat ∧ c.toNat ≤ z + 9)).map
    fun z => c.toNat - z

/-- A Unicode decimal digit (`Nd`). -/
def isDigitChar (c : Char) : Bool := (digitVal? c).isSome

/-- The accept condition of the guard-and-convert step of `parse_ports`:
the source checks `part.isdigit()` and then calls `int(part)`.
`str.isdigit()` accepts every `Nd` character plus a few
`Numeric_Type=Digit` characters (such as the superscript `'²'`) that the
subsequent `int()` rejects with the same `ValueError` outcome the guard
produces, so a part is accepted, observably, exactly when it is non-empty
and every character is an `Nd` decimal digit. -/
def pyIsDigit (l : List Char) : Bool := decide (l ≠ []) && l.all isDigitChar

/-- Python `int()` on a string of `Nd` digits: base 10 over the digit
values (the `none` fallback is never hit on strings passing
`pyIsDigit`). -/
def toNatDigits (l : List Char) : Nat :=
  l.foldl (fun acc c =>
    acc * 10 + (match digitVal? c with | some v => v | none => 0)) 0

/-- Python `part.split("-", 1)` when `"-" in part`: the pieces before and
after the first dash. -/
def splitFirstDash : List Char → List Char × List Char
  | [] => ([], [])
  | c :: t =>
    if c = '-' then ([], t)
    else
      let r := splitFirstDash t
      (c :: r.1, r.2)

/-- The `for part in spec.split(","):` loop of `parse_ports`.  The `ports`
set is modelled as the list of values passed to `ports.add(...)`, in
order; `sorted(ports)` below becomes dedup-then-sort, which is exactly the
sorted list of the distinct added values.  A `range(start, end + 1)` add
is `List.range' start (end + 1 - start)`.  Error payloads summarise the
f-string messages. -/
def collectPorts : List (List Char) → List Nat → Except String (List Nat)
  | [], acc => .ok acc
  | part0 :: rest, acc =>
    let part := pyStripChars part0
    if part = [] then collectPorts rest acc
    else if part.contains '-' then
      let ab := splitFirstDash part
      let a := pyStripChars ab.1
      let b := pyStripChars ab.2
      if pyIsDigit a && pyIsDigit b then
        let start := toNatDigits a
        let stop := toNatDigits b
        let se := if start > stop then (stop, start) else (start, stop)
        collectPorts rest (acc ++ List.range' se.1 (se.2 + 1 - se.1))
      else .error "Invalid range"
    else if pyIsDigit part then collectPorts rest (acc ++ [toNatDigits part])
    else .error "Invalid port"

/-- `parse_ports(spec)`: collect the set, then
`[p for p in sorted(ports) if 0 < p <= 65535]`, raising if empty. -/
def parse_ports (spec : List Char) : Except String (List Nat) :=
  match collectPorts (splitComma spec) [] with
  | .error e => .error e
  | .ok ports =>
    if ((ports.dedup.insertionSort (· ≤ ·)).filter
        fun p => decide (0 < p ∧ p ≤ 65535)) = [] then
      .error "No valid ports parsed."
    else .ok ((ports.dedup.insertionSort (· ≤ ·)).filter
        fun p => decide (0 < p ∧ p ≤ 65535))

/-! ### Claim-side reading of `parse_ports`

The definitions below follow the words of the claim about `parse_ports`
(with its part grammar restricted to the non-empty stripped parts, the
amendment the code forces); the claim is settled by comparing them with
the embedded function. -/

/-- A well-formed non-empty part per the claim: a string of digits, or two
strings of digits joined by `-` (whitespace around each side tolerated). -/
def specGoodPart (part : List Char) : Bool :=
  if part.contains '-' then
    pyIsDigit (pyStripChars (splitFirstDash part).1) &&
      pyIsDigit (pyStripChars (splitFirstDash part).2)
  else pyIsDigit part

/-- The ports a well-formed part denotes per the claim: the single port it
spells, or every port in the inclusive range between its two endpoints
taken in ascending order (a reversed range is normalised). -/
def specPartDenotes (part : List Char) (p : Nat) : Prop :=
  if part.contains '-' then
    min (toNatDigits (pyStripChars (splitFirstDash part).1))
        (toNatDigits (pyStripChars (splitFirstDash part).2)) ≤ p ∧
      p ≤ max (toNatDigits (pyStripChars (splitFirstDash part).1))
        (toNatDigits (pyStripChars (splitFirstDash part).2))
  else p = toNatDigits part

/-- The ports a specification denotes per the claim: those of its
non-empty stripped parts (each of which is well formed whenever
`parse_ports` succeeds). -/
def specDenotes (spec : List Char) (p : Nat) : Prop :=
  ∃ part0 ∈ splitComma spec, pyStripChars part0 ≠ [] ∧
    specPartDenotes (pyStripChars part0) p

/-- Some non-empty stripped part of the specification is ill-formed. -/
def specBadPartExists (spec : List Char) : Prop :=
  ∃ part0 ∈ splitComma spec, pyStripChars part0 ≠ [] ∧
    specGoodPart (pyStripChars part0) = false

def isErr {ε α : Type} : Except ε α → Bool
  | .error _ => true
  | .ok _ => false

/-! ## `password_analyzer.py` — `check_password_strength` -/

def isUpperChar (c : Char) : Bool := decide (65 ≤ c.toNat ∧ c.toNat ≤ 90)

def isLowerChar (c : Char) : Bool := decide (97 ≤ c.toNat ∧ c.toNat ≤ 122)

/-- Code points of the regex class
`[!@#$%^&*()_+\-=\[\]{};':"\\|,.<>/?]` from the source. -/
def symbolCodes : List Nat :=
  [33, 64, 35, 36, 37, 94, 38, 42, 40, 41, 95, 43, 45, 61, 91, 93, 123, 125,
   59, 39, 58, 34, 92, 124, 44, 46, 60, 62, 47, 63]

def isSymbolChar (c : Char) : Bool := symbolCodes.contains c.toNat

def hasUpper (p : List Char) : Bool := p.any isUpperChar
def hasLower (p : List Char) : Bool := p.any isLowerChar
def hasDigit (p : List Char) : Bool := p.any isDigitChar
def hasSymbol (p : List Char) : Bool := p.any isSymbolChar

/-- Python `str.lower()` (ASCII fragment, enough for the common-word
check against ASCII dictionary words). -/
def toLowerChars (p : List Char) : List Char :=
  p.map fun c => if isUpperChar c then Char.ofNat (c.toNat + 32) else c

/-- `word in password.lower()` for one dictionary word. -/
def containsWord (p : List Char) (word : List Char) : Bool :=
  (toLowerChars p).tails.any fun t => word.isPrefixOf t

def commonWords : List (List Char) :=
  ["password".toList, "123456".toList, "qwerty".toList, "admin".toList]

/-- The score accumulated by `check_password_strength`: one point for
length ≥ 8 and one per character class present. -/
def pwScore (p : List Char) : Nat :=
  (if p.length < 8 then 0 else 1) + (if hasUpper p then 1 else 0) +
    (if hasLower p then 1 else 0) + (if hasDigit p then 1 else 0) +
    (if hasSymbol p then 1 else 0)

/-- `check_password_strength(password)`: the `(rating, feedback)` pair,
feedback in append order. -/
def check_password_strength (password : List Char) : String × List String :=
  let feedback1 : List String :=
    if password.length < 8 then ["Password too short (<8)."] else []
  let score := pwScore password
  let feedback2 := feedback1 ++
    (if commonWords.any (containsWord password) then
      ["Contains a common/easy-to-guess word."] else [])
  let rating := if score ≤ 2 then "Weak" else if score = 3 then "Moderate"
    else "Strong"
  let feedback3 := feedback2 ++
    (if hasUpper password then [] else ["Add uppercase letters."]) ++
    (if hasLower password then [] else ["Add lowercase letters."]) ++
    (if hasDigit password then [] else ["Add numbers."]) ++
    (if hasSymbol password then [] else ["Add symbols."]) ++
    (if password.length < 12 then ["Increase length to 12+ characters."] else [])
  (rating, feedback3)

/-! ## Codec lemmas -/

set_option maxRecDepth 8000 in
theorem utf8DecodeAux_encodeChar (v : Nat) (hv : Nat.isValidChar v)
    (rest : List Nat) (f : Nat) :
    utf8DecodeAux (f + 1) (utf8EncodeChar v ++ rest) = v :: utf8DecodeAux f rest := by
  have hv2 : v < 0xD800 ∨ (0xDFFF < v ∧ v < 0x110000) := hv
  rcases Nat.lt_or_ge v 0x80 with h1 | h1
  · have he : utf8EncodeChar v = [v] := by
      unfold utf8EncodeChar; rw [if_pos h1]
    rw [he]
    show utf8DecodeAux (f + 1) (v :: rest) = _
    conv_lhs => rw [utf8DecodeAux.eq_def]
    simp only []
    rw [if_pos h1]
  · rcases Nat.lt_or_ge v 0x800 with h2 | h2
    · have he : utf8EncodeChar v = [0xC0 + v / 64, 0x80 + v % 64] := by
        unfold utf8EncodeChar; rw [if_neg (by omega), if_pos (by omega)]
      rw [he]
      show utf8DecodeAux (f + 1) ((0xC0 + v / 64) :: (0x80 + v % 64) :: rest) = _
      conv_lhs => rw [utf8DecodeAux.eq_def]
      simp only []
      rw [if_neg (by omega), if_pos (by omega), if_pos (by omega)]
      congr 1
      omega
    · rcases Nat.lt_or_ge v 0x10000 with h3 | h3
      · have he : utf8EncodeChar v =
            [0xE0 + v / 4096, 0x80 + v / 64 % 64, 0x80 + v % 64] := by
          unfold utf8EncodeChar
          rw [if_neg (by omega), if_neg (by omega), if_pos (by omega)]
        rw [he]
        show utf8DecodeAux (f + 1)
          ((0xE0 + v / 4096) :: (0x80 + v / 64 % 64) :: (0x80 + v % 64) :: rest) = _
        conv_lhs => rw [utf8DecodeAux.eq_def]
        simp only []
        rw [if_neg (by omega), if_neg (by omega), if_pos (by omega),
          if_pos (by split_ifs <;> omega), if_pos (by omega)]
        congr 1
        omega
      · have he : utf8EncodeChar v =
            [0xF0 + v / 262144, 0x80 + v / 4096 % 64, 0x80 + v / 64 % 64,
              0x80 + v % 64] := by
          unfold utf8EncodeChar
          rw [if_neg (by omega), if_neg (by omega), if_neg (by omega)]
        rw [he]
        show utf8DecodeAux (f + 1)
          ((0xF0 + v / 262144) :: (0x80 + v / 4096 % 64) :: (0x80 + v / 64 % 64) ::
            (0x80 + v % 64) :: rest) = _
        conv_lhs => rw [utf8DecodeAux.eq_def]
        simp only []
        rw [if_neg (by omega), if_neg (by omega), if_neg (by omega),
          if_pos (by omega), if_pos (by split_ifs <;> omega), if_pos (by omega),
          if_pos (by omega)]
        congr 1
        omega

theorem utf8DecodeAux_nil (f : Nat) : utf8DecodeAux f [] = [] := by
  cases f <;> rfl

theorem utf8DecodeAux_encodeScalars (l : List Nat) (f : Nat)
    (hval : ∀ v ∈ l, Nat.isValidChar v) (hf : l.length ≤ f) :
    utf8DecodeAux f (utf8EncodeScalars l) = l := by
  induction l generalizing f with
  | nil => rw [utf8EncodeScalars, utf8DecodeAux_nil]
  | cons v t ih =>
    obtain ⟨g, rfl⟩ : ∃ g, f = g + 1 := ⟨f - 1, by simp at hf; omega⟩
    rw [utf8EncodeScalars]
    rw [utf8DecodeAux_encodeChar v (hval v (by simp)) _ g]
    rw [ih g (fun w hw => hval w (List.mem_cons_of_mem _ hw)) (by simp at hf; omega)]

theorem utf8EncodeChar_ne_nil (v : Nat) : utf8EncodeChar v ≠ [] := by
  unfold utf8EncodeChar
  split_ifs <;> simp

theorem length_le_utf8EncodeScalars (l : List Nat) :
    l.length ≤ (utf8EncodeScalars l).length := by
  induction l with
  | nil => simp [utf8EncodeScalars]
  | cons v t ih =>
    rw [utf8EncodeScalars, List.length_append]
    have : 1 ≤ (utf8EncodeChar v).length := by
      rcases h : utf8EncodeChar v with _ | _
      · exact absurd h (utf8EncodeChar_ne_nil v)
      · simp
    simp only [List.length_cons]
    omega

/-- Decoding inverts encoding on every list of valid Unicode scalar
values. -/
theorem utf8DecodeRepl_encode (l : List Nat) (hval : ∀ v ∈ l, Nat.isValidChar v) :
    utf8DecodeRepl (utf8EncodeScalars l) = l :=
  utf8DecodeAux_encodeScalars l _ hval (length_le_utf8EncodeScalars l)

theorem utf8EncodeScalars_ne_nil (l : List Nat) (h : l ≠ []) :
    utf8EncodeScalars l ≠ [] := by
  rcases l with _ | ⟨v, t⟩
  · exact absurd rfl h
  · rw [utf8EncodeScalars]
    intro hc
    exact utf8EncodeChar_ne_nil v (List.append_eq_nil.mp hc).1

theorem toScalars_valid (s : List Char) : ∀ v ∈ toScalars s, Nat.isValidChar v := by
  intro v hv
  obtain ⟨c, _, rfl⟩ := List.mem_map.mp hv
  exact c.valid

/-! ## Strip lemmas -/

theorem dropWhile_length_le {α : Type} (p : α → Bool) (l : List α) :
    (l.dropWhile p).length ≤ l.length := by
  induction l with
  | nil => simp
  | cons a t ih =>
    rw [List.dropWhile_cons]
    split_ifs <;> simp only [List.length_cons] <;> omega

theorem dropWhile_length_eq {α : Type} (p : α → Bool) (l : List α)
    (h : (l.dropWhile p).length = l.length) : l.dropWhile p = l := by
  induction l with
  | nil => simp
  | cons a t ih =>
    by_cases hp : p a
    · rw [List.dropWhile_cons, if_pos hp] at h
      have hle := dropWhile_length_le p t
      simp only [List.length_cons] at h
      omega
    · rw [List.dropWhile_cons, if_neg hp]

/-! ## Lemmas about the handler and the claims it settles -/

theorem isPySpace_ten : isPySpace 10 = true := by decide

theorem pyStrip_parts (l : List Nat) (h : pyStrip l = l) :
    l.dropWhile isPySpace = l ∧ l.reverse.dropWhile isPySpace = l.reverse := by
  unfold pyStrip at h
  have h1 : l.dropWhile isPySpace = l := by
    apply dropWhile_length_eq
    have e1 := dropWhile_length_le isPySpace l
    have e2 := dropWhile_length_le isPySpace (l.dropWhile isPySpace).reverse
    have e3 : ((l.dropWhile isPySpace).reverse.dropWhile isPySpace).reverse.length
        = l.length := by rw [h]
    simp only [List.length_reverse] at e2 e3
    omega
  rw [h1] at h
  refine ⟨h1, ?_⟩
  have h4 := congrArg List.reverse h
  simpa using h4

theorem pyStrip_append_newline (l : List Nat) (h : pyStrip l = l) :
    pyStrip (l ++ [10]) = l := by
  obtain ⟨h1, h2⟩ := pyStrip_parts l h
  rcases l with _ | ⟨a, t⟩
  · rfl
  · have hpa : isPySpace a = false := by
      by_contra hc
      have hpa' : isPySpace a = true := by
        revert hc; cases isPySpace a <;> simp
      rw [List.dropWhile_cons_of_pos hpa'] at h1
      have hl1 := dropWhile_length_le isPySpace t
      have hl2 := congrArg List.length h1
      simp only [List.length_cons] at hl2
      omega
    unfold pyStrip
    have hd : List.dropWhile isPySpace (a :: (t ++ [10])) = a :: (t ++ [10]) :=
      List.dropWhile_cons_of_neg (by simp [hpa])
    rw [List.cons_append, hd]
    have hrev : (a :: (t ++ [10])).reverse = 10 :: (a :: t).reverse := by simp
    rw [hrev, List.dropWhile_cons_of_pos isPySpace_ten, h2, List.reverse_reverse]

theorem clientLoop_replicate_recv (b : Nat) (t : List Nat) (N : Nat) :
    clientLoop (List.replicate N (ConnEvent.recv (b :: t))) =
      (List.replicate N (ackResponse (pyStrip (utf8DecodeRepl (b :: t)))),
        Except.ok LoopEnd.running) := by
  induction N with
  | zero => rfl
  | succ n ih =>
    rw [List.replicate_succ, List.replicate_succ]
    rw [clientLoop, ih]
    simp

theorem clientLoop_append_msgs (pre rest : List ConnEvent)
    (hpre : ∀ e ∈ pre, ∃ b t, e = ConnEvent.recv (b :: t)) :
    clientLoop (pre ++ rest) =
      (pre.map responseTo ++ (clientLoop rest).1, (clientLoop rest).2) := by
  induction pre with
  | nil => simp
  | cons e p ih =>
    obtain ⟨b, t, rfl⟩ := hpre e (List.mem_cons_self e p)
    rw [List.cons_append, clientLoop]
    · rw [ih (fun x hx => hpre x (List.mem_cons_of_mem _ hx))]
      simp [responseTo]
    · simp

/-- C1: for a message `M` already stripped of surrounding whitespace and
free of newlines, each read of the bytes of `M\n` makes the handler send
back exactly the bytes of `ACK: M\n`; `N` such reads on one connection
produce exactly the `N` matching responses, in order. -/
theorem ack_echo_per_connection (M : List Char) (N : Nat)
    (hstrip : pyStrip (toScalars M) = toScalars M)
    (_hnl : (10 : Nat) ∉ toScalars M) :
    handle_client (List.replicate N
        (ConnEvent.recv (utf8EncodeScalars (toScalars M ++ [10])))) =
      Except.ok ⟨List.replicate N
          (utf8EncodeScalars (ackScalars ++ toScalars M ++ [10])),
        HandlerOutcome.running, false⟩ := by
  have hvalid : ∀ v ∈ toScalars M ++ [10], Nat.isValidChar v := by
    intro v hv
    rcases List.mem_append.mp hv with h | h
    · exact toScalars_valid M v h
    · simp at h
      subst h
      exact Or.inl (by norm_num)
  have hne : utf8EncodeScalars (toScalars M ++ [10]) ≠ [] :=
    utf8EncodeScalars_ne_nil _ (by simp)
  obtain ⟨b, t, hbt⟩ : ∃ b t, utf8EncodeScalars (toScalars M ++ [10]) = b :: t := by
    rcases hcase : utf8EncodeScalars (toScalars M ++ [10]) with _ | ⟨b, t⟩
    · exact absurd hcase hne
    · exact ⟨b, t, rfl⟩
  have hloop := clientLoop_replicate_recv b t N
  rw [← hbt] at hloop
  rw [utf8DecodeRepl_encode _ hvalid, pyStrip_append_newline _ hstrip] at hloop
  unfold handle_client
  rw [hloop]
  rfl

/-- C1 witness: the spec scenarios "Hello server" (twice on one
connection) and the empty line. -/
theorem ack_echo_per_connection_witness :
    handle_client (List.replicate 2
        (ConnEvent.recv (utf8EncodeScalars (toScalars "Hello server".toList ++ [10])))) =
      Except.ok ⟨List.replicate 2
          (utf8EncodeScalars (ackScalars ++ toScalars "Hello server".toList ++ [10])),
        HandlerOutcome.running, false⟩ ∧
    handle_client (List.replicate 1
        (ConnEvent.recv (utf8EncodeScalars (toScalars ([] : List Char) ++ [10])))) =
      Except.ok ⟨List.replicate 1
          (utf8EncodeScalars (ackScalars ++ toScalars ([] : List Char) ++ [10])),
        HandlerOutcome.running, false⟩ :=
  ⟨ack_echo_per_connection "Hello server".toList 2 (by decide) (by decide),
    ack_echo_per_connection [] 1 (by decide) (by decide)⟩

/-- C4: every connection-local failure is contained: `handle_client` never
lets an exception escape (decode errors are impossible by replacement,
timeout and I/O errors are caught), and a handler finishing never changes
the listener loop's state; decoding the malformed byte 0xFF substitutes
U+FFFD rather than failing. -/
theorem connection_failures_contained :
    (∀ events : List ConnEvent, isErr (handle_client events) = false) ∧
    (∀ (s : SysState) (id : Nat),
      (sysStep s (SysEvent.handlerDone id)).serving = s.serving ∧
      (sysStep s (SysEvent.handlerDone id)).stop = s.stop ∧
      (sysStep s (SysEvent.handlerDone id)).listenerClosed = s.listenerClosed) ∧
    utf8DecodeRepl [0xFF, 65] = [0xFFFD, 65] := by
  refine ⟨?_, ?_, by decide⟩
  · intro events
    unfold handle_client isErr
    cases h : (clientLoop events).2 with
    | ok le => cases le <;> rfl
    | error e => cases e <;> rfl
  · intro s id
    unfold sysStep
    split_ifs <;> simp

/-- C5: on every exit path of the handler (peer close, timeout, I/O
error, any other exception) the connection socket has been closed by the
time the handler returns. -/
theorem handler_releases_socket (events : List ConnEvent) (r : HandlerResult)
    (h : handle_client events = Except.ok r)
    (hexit : r.outcome ≠ HandlerOutcome.running) :
    r.connClosed = true := by
  unfold handle_client at h
  cases he : (clientLoop events).2 with
  | ok le =>
    cases le with
    | peerClosed =>
      rw [he] at h
      injection h with h'
      rw [← h']
    | running =>
      rw [he] at h
      injection h with h'
      rw [← h'] at hexit
      exact absurd rfl hexit
  | error e =>
    cases e with
    | socketTimeout =>
      rw [he] at h
      injection h with h'
      rw [← h']
    | osError =>
      rw [he] at h
      injection h with h'
      rw [← h']

/-- C5 witness: a handler that exits via the idle timeout has closed the
socket. -/
theorem handler_releases_socket_witness :
    handle_client [ConnEvent.recvTimeout] =
      Except.ok ⟨[], HandlerOutcome.timedOut, true⟩ ∧
    (⟨[], HandlerOutcome.timedOut, true⟩ : HandlerResult).connClosed = true :=
  ⟨rfl, handler_releases_socket [ConnEvent.recvTimeout] _ rfl (by decide)⟩

/-- C7: a zero-byte read (orderly peer close) after any number of served
messages makes the handler exit its loop normally: no response for it, no
error, and the connection is closed. -/
theorem zero_byte_read_exits (pre rest : List ConnEvent)
    (hpre : ∀ e ∈ pre, ∃ b t, e = ConnEvent.recv (b :: t)) :
    handle_client (pre ++ ConnEvent.recv [] :: rest) =
      Except.ok ⟨pre.map responseTo, HandlerOutcome.peerClosed, true⟩ := by
  unfold handle_client
  rw [clientLoop_append_msgs pre _ hpre]
  simp [clientLoop]

/-- C7 witness: one served message, then the peer closes. -/
theorem zero_byte_read_exits_witness :
    handle_client [ConnEvent.recv [72, 105, 10], ConnEvent.recv []] =
      Except.ok ⟨[[65, 67, 75, 58, 32, 72, 105, 10]],
        HandlerOutcome.peerClosed, true⟩ := by
  have h := zero_byte_read_exits [ConnEvent.recv [72, 105, 10]] []
    (by intro e he; simp at he; exact ⟨72, [105, 10], he⟩)
  simpa using h

/-! ## Listener-loop and process-level claims -/

/-- C2: when the accept loop observes the shutdown flag true at its poll
check, the loop terminates, the listening socket is closed, and the
accepted connections are exactly those of the iterations before the flag
was observed — nothing after it is ever accepted. -/
theorem shutdown_stops_accepting (pre post : List (Bool × AcceptEvent))
    (ev : AcceptEvent) (hpre : ∀ p ∈ pre, p.1 = false) :
    serveRun (pre ++ (true, ev) :: post) =
      ⟨pre.filterMap fun p => acceptedConn p.2, true, true⟩ := by
  induction pre with
  | nil => rfl
  | cons q pre ih =>
    obtain ⟨b, e⟩ := q
    have hb : b = false := hpre (b, e) (List.mem_cons_self _ _)
    subst hb
    have ih2 := ih fun p hp => hpre p (List.mem_cons_of_mem _ hp)
    rw [List.cons_append]
    cases e <;> simp [serveRun, ih2, acceptedConn]

/-- C2 witness: one accepted connection, then the flag is observed. -/
theorem shutdown_stops_accepting_witness :
    serveRun [(false, AcceptEvent.incoming 3), (true, AcceptEvent.timeout),
        (false, AcceptEvent.incoming 9)] =
      ⟨[3], true, true⟩ := by
  have h := shutdown_stops_accepting [(false, AcceptEvent.incoming 3)]
    [(false, AcceptEvent.incoming 9)] AcceptEvent.timeout (by decide)
  simpa using h

/-- C3 as stated is false on the code: handler threads are started with
`daemon=True`, so at process exit (which follows as soon as the serve loop
returns) a still-running handler is terminated abruptly — an event that is
not the handler finishing on its own. -/
theorem handler_killed_at_process_exit :
    ¬ (∀ (s : SysState) (e : SysEvent) (id : Nat),
        id ∈ s.active → id ∉ (sysStep s e).active →
        e = SysEvent.handlerDone id) := by
  intro hclaim
  have h7 := hclaim
    (sysRun initState [SysEvent.acceptConn 7, SysEvent.sigint, SysEvent.observeStop])
    SysEvent.processExit 7 (by decide) (by decide)
  exact absurd h7 (by decide)

/-- C3 (amended): after the shutdown flag is set the server never cancels
a running handler — neither the signal nor the loop exit touches the set
of live handlers, and a handler disappears only by finishing on its own or
because the whole process exits (daemon threads die with the process). -/
theorem handlers_not_cancelled_by_server :
    (∀ s : SysState, (sysStep s SysEvent.sigint).active = s.active ∧
      (sysStep s SysEvent.observeStop).active = s.active) ∧
    (∀ (s : SysState) (e : SysEvent) (id : Nat),
      id ∈ s.active → id ∉ (sysStep s e).active →
      e = SysEvent.handlerDone id ∨ e = SysEvent.processExit) := by
  constructor
  · intro s
    constructor
    · rfl
    · unfold sysStep
      split_ifs <;> rfl
  · intro s e id hmem hgone
    cases e with
    | sigint => exact absurd hmem hgone
    | acceptConn j =>
      simp only [sysStep] at hgone
      split_ifs at hgone
      · exact absurd (List.mem_cons_of_mem _ hmem) hgone
      · exact absurd hmem hgone
    | pollTick => exact absurd hmem hgone
    | acceptErr => exact absurd hmem hgone
    | observeStop =>
      simp only [sysStep] at hgone
      split_ifs at hgone <;> exact absurd hmem hgone
    | handlerDone j =>
      by_cases hij : id = j
      · exact Or.inl (by rw [hij])
      · simp only [sysStep] at hgone
        split_ifs at hgone
        · exact absurd ((List.mem_erase_of_ne hij).mpr hmem) hgone
        · exact absurd hmem hgone
    | processExit => exact Or.inr rfl

/-- C3 witness: the signal leaves a live handler untouched, and a handler
that vanishes while the process is alive did so by finishing on its own. -/
theorem handlers_not_cancelled_by_server_witness :
    (sysStep ⟨true, false, true, [5], true⟩ SysEvent.sigint).active = [5] ∧
    (SysEvent.handlerDone 5 = SysEvent.handlerDone 5 ∨
      SysEvent.handlerDone 5 = SysEvent.processExit) :=
  ⟨(handlers_not_cancelled_by_server.1 ⟨true, false, true, [5], true⟩).1,
    handlers_not_cancelled_by_server.2 ⟨true, false, true, [5], true⟩
      (SysEvent.handlerDone 5) 5 (by decide) (by decide)⟩

theorem sysStep_stop (s : SysState) (e : SysEvent) :
    (sysStep s e).stop = (s.stop || isSigint e) := by
  cases e <;> simp [sysStep, isSigint] <;> split_ifs <;> rfl

/-- C6: `STOP` starts false and is write-once-set: after any run of
process events it is true exactly if it was already true or some SIGINT
occurred — so the handler only sets it, repeated signals are idempotent,
and nothing ever resets it. -/
theorem shutdown_flag_write_once :
    initState.stop = false ∧
    ∀ (s : SysState) (es : List SysEvent),
      (sysRun s es).stop = (s.stop || es.any isSigint) := by
  refine ⟨rfl, ?_⟩
  intro s es
  induction es generalizing s with
  | nil => simp [sysRun]
  | cons e t ih =>
    have hstep := sysStep_stop s e
    simp only [sysRun, List.foldl_cons] at *
    rw [ih (sysStep s e), hstep, List.any_cons]
    cases s.stop <;> cases isSigint e <;> simp

/-- C8: a bind/listen failure aborts startup with exit status 1 (distinct
from the clean-shutdown status 0), while a transient accept error is a
no-op for the loop, which keeps serving. -/
theorem bind_failure_fatal :
    (∀ (e : Nat) (trace : List (Bool × AcceptEvent)),
      serverExitCode (BindOutcome.failure e) trace = 1) ∧
    (∀ trace : List (Bool × AcceptEvent),
      serverExitCode BindOutcome.ok trace = 0) ∧
    (∀ trace : List (Bool × AcceptEvent),
      serveRun ((false, AcceptEvent.acceptError) :: trace) = serveRun trace) :=
  ⟨fun _ _ => rfl, fun _ => rfl, fun _ => rfl⟩

/-! ## Lemmas and claims for `parse_ports` -/


theorem collectPorts_cons_empty (part0 : List Char) (rest : List (List Char))
    (acc : List Nat) (h : pyStripChars part0 = []) :
    collectPorts (part0 :: rest) acc = collectPorts rest acc := by
  simp [collectPorts, h]

theorem contains_dash_false (l : List Char) (h : l.contains '-' = false) :
    '-' ∉ l := by
  simpa using h

theorem contains_dash_true (l : List Char) (h : l.contains '-' = true) :
    '-' ∈ l := by
  simpa using h

theorem collectPorts_cons_single (part0 : List Char) (rest : List (List Char))
    (acc : List Nat) (hne : pyStripChars part0 ≠ [])
    (hnd : (pyStripChars part0).contains '-' = false)
    (hd : pyIsDigit (pyStripChars part0) = true) :
    collectPorts (part0 :: rest) acc =
      collectPorts rest (acc ++ [toNatDigits (pyStripChars part0)]) := by
  have hnd' := contains_dash_false _ hnd
  simp [collectPorts, hne, hnd', hd]

theorem collectPorts_cons_range (part0 : List Char) (rest : List (List Char))
    (acc : List Nat) (hne : pyStripChars part0 ≠ [])
    (hdash : (pyStripChars part0).contains '-' = true)
    (ha : pyIsDigit (pyStripChars (splitFirstDash (pyStripChars part0)).1) = true)
    (hb : pyIsDigit (pyStripChars (splitFirstDash (pyStripChars part0)).2) = true) :
    collectPorts (part0 :: rest) acc =
      collectPorts rest (acc ++ List.range'
        (min (toNatDigits (pyStripChars (splitFirstDash (pyStripChars part0)).1))
          (toNatDigits (pyStripChars (splitFirstDash (pyStripChars part0)).2)))
        ((max (toNatDigits (pyStripChars (splitFirstDash (pyStripChars part0)).1))
          (toNatDigits (pyStripChars (splitFirstDash (pyStripChars part0)).2)) + 1) -
          min (toNatDigits (pyStripChars (splitFirstDash (pyStripChars part0)).1))
          (toNatDigits (pyStripChars (splitFirstDash (pyStripChars part0)).2)))) := by
  have hdash' := contains_dash_true _ hdash
  simp [collectPorts, hne, hdash', ha, hb]
  split_ifs with h
  · rw [Nat.min_eq_right (Nat.le_of_lt h), Nat.max_eq_left (Nat.le_of_lt h)]
  · rw [Nat.min_eq_left (Nat.le_of_not_lt h), Nat.max_eq_right (Nat.le_of_not_lt h)]

theorem collectPorts_cons_bad (part0 : List Char) (rest : List (List Char))
    (acc : List Nat) (hne : pyStripChars part0 ≠ [])
    (hbad : specGoodPart (pyStripChars part0) = false) :
    isErr (collectPorts (part0 :: rest) acc) = true := by
  unfold specGoodPart at hbad
  by_cases hdash : (pyStripChars part0).contains '-' = true
  · rw [if_pos hdash] at hbad
    have hdash' := contains_dash_true _ hdash
    rcases Bool.and_eq_false_iff.mp hbad with hfa | hfb
    · simp [collectPorts, hne, hdash', hfa, isErr]
    · simp [collectPorts, hne, hdash', hfb, isErr]
  · have hdash0 : (pyStripChars part0).contains '-' = false := by
      revert hdash; cases (pyStripChars part0).contains '-' <;> simp
    rw [if_neg hdash] at hbad
    have hdash' := contains_dash_false _ hdash0
    simp [collectPorts, hne, hdash', hbad, isErr]



theorem specGoodPart_ne_nil (part : List Char) (h : specGoodPart part = true) :
    part ≠ [] := by
  intro h0
  rw [h0] at h
  simp [specGoodPart, pyIsDigit] at h

theorem specGoodPart_false_of_not_true (part : List Char)
    (h : ¬ specGoodPart part = true) : specGoodPart part = false := by
  revert h
  cases specGoodPart part <;> simp

theorem collectPorts_error (parts : List (List Char)) (acc : List Nat)
    (hbad : ∃ part0 ∈ parts, pyStripChars part0 ≠ [] ∧
      specGoodPart (pyStripChars part0) = false) :
    isErr (collectPorts parts acc) = true := by
  induction parts generalizing acc with
  | nil => simp at hbad
  | cons q rest ih =>
    obtain ⟨part0, hpmem, hpne, hpbad⟩ := hbad
    rcases List.mem_cons.mp hpmem with rfl | hmem
    · exact collectPorts_cons_bad part0 rest acc hpne hpbad
    · by_cases hq : pyStripChars q = []
      · rw [collectPorts_cons_empty _ _ _ hq]
        exact ih acc ⟨part0, hmem, hpne, hpbad⟩
      · by_cases hqg : specGoodPart (pyStripChars q) = true
        · have hqg2 := hqg
          unfold specGoodPart at hqg2
          by_cases hdash : (pyStripChars q).contains '-' = true
          · rw [if_pos hdash] at hqg2
            obtain ⟨ha, hb⟩ := Bool.and_eq_true_iff.mp hqg2
            rw [collectPorts_cons_range _ _ _ hq hdash ha hb]
            exact ih _ ⟨part0, hmem, hpne, hpbad⟩
          · have hdash0 : (pyStripChars q).contains '-' = false := by
              revert hdash; cases (pyStripChars q).contains '-' <;> simp
            rw [if_neg hdash] at hqg2
            rw [collectPorts_cons_single _ _ _ hq hdash0 hqg2]
            exact ih _ ⟨part0, hmem, hpne, hpbad⟩
        · exact collectPorts_cons_bad q rest acc hq
            (specGoodPart_false_of_not_true _ hqg)

theorem mem_range'_iff_denotes (part : List Char) (p : Nat)
    (hdash : part.contains '-' = true) :
    (p ∈ List.range'
      (min (toNatDigits (pyStripChars (splitFirstDash part).1))
        (toNatDigits (pyStripChars (splitFirstDash part).2)))
      ((max (toNatDigits (pyStripChars (splitFirstDash part).1))
        (toNatDigits (pyStripChars (splitFirstDash part).2)) + 1) -
        min (toNatDigits (pyStripChars (splitFirstDash part).1))
        (toNatDigits (pyStripChars (splitFirstDash part).2)))) ↔
      specPartDenotes part p := by
  rw [List.mem_range'_1, specPartDenotes, if_pos hdash]
  omega

theorem collectPorts_ok (parts : List (List Char)) (acc : List Nat)
    (hgood : ∀ part0 ∈ parts, pyStripChars part0 = [] ∨
      specGoodPart (pyStripChars part0) = true) :
    ∃ res, collectPorts parts acc = Except.ok res ∧
      ∀ p, p ∈ res ↔ (p ∈ acc ∨ ∃ part0 ∈ parts, pyStripChars part0 ≠ [] ∧
        specPartDenotes (pyStripChars part0) p) := by
  induction parts generalizing acc with
  | nil => exact ⟨acc, rfl, fun p => by simp⟩
  | cons q rest ih =>
    rcases hgood q (List.mem_cons_self q rest) with hq | hq
    · rw [collectPorts_cons_empty _ _ _ hq]
      obtain ⟨res, hres, hmem⟩ :=
        ih acc (fun x hx => hgood x (List.mem_cons_of_mem _ hx))
      refine ⟨res, hres, fun p => ?_⟩
      rw [hmem p]
      constructor
      · rintro (h | ⟨part0, hm, hn, hd⟩)
        · exact Or.inl h
        · exact Or.inr ⟨part0, List.mem_cons_of_mem _ hm, hn, hd⟩
      · rintro (h | ⟨part0, hm, hn, hd⟩)
        · exact Or.inl h
        · rcases List.mem_cons.mp hm with rfl | hm2
          · exact absurd hq hn
          · exact Or.inr ⟨part0, hm2, hn, hd⟩
    · have hqne : pyStripChars q ≠ [] := specGoodPart_ne_nil _ hq
      have hq2 := hq
      unfold specGoodPart at hq2
      by_cases hdash : (pyStripChars q).contains '-' = true
      · rw [if_pos hdash] at hq2
        obtain ⟨ha, hb⟩ := Bool.and_eq_true_iff.mp hq2
        rw [collectPorts_cons_range _ _ _ hqne hdash ha hb]
        obtain ⟨res, hres, hmem⟩ :=
          ih _ (fun x hx => hgood x (List.mem_cons_of_mem _ hx))
        refine ⟨res, hres, fun p => ?_⟩
        rw [hmem p, List.mem_append, mem_range'_iff_denotes _ _ hdash]
        constructor
        · rintro ((h | h) | ⟨part0, hm, hn, hd⟩)
          · exact Or.inl h
          · exact Or.inr ⟨q, List.mem_cons_self q rest, hqne, h⟩
          · exact Or.inr ⟨part0, List.mem_cons_of_mem _ hm, hn, hd⟩
        · rintro (h | ⟨part0, hm, hn, hd⟩)
          · exact Or.inl (Or.inl h)
          · rcases List.mem_cons.mp hm with rfl | hm2
            · exact Or.inl (Or.inr hd)
            · exact Or.inr ⟨part0, hm2, hn, hd⟩
      · have hdash0 : (pyStripChars q).contains '-' = false := by
          revert hdash; cases (pyStripChars q).contains '-' <;> simp
        rw [if_neg hdash] at hq2
        rw [collectPorts_cons_single _ _ _ hqne hdash0 hq2]
        obtain ⟨res, hres, hmem⟩ :=
          ih _ (fun x hx => hgood x (List.mem_cons_of_mem _ hx))
        refine ⟨res, hres, fun p => ?_⟩
        rw [hmem p, List.mem_append]
        have hden : specPartDenotes (pyStripChars q) p ↔
            p = toNatDigits (pyStripChars q) := by
          rw [specPartDenotes, if_neg hdash]
        constructor
        · rintro ((h | h) | ⟨part0, hm, hn, hd⟩)
          · exact Or.inl h
          · exact Or.inr ⟨q, List.mem_cons_self q rest, hqne,
              hden.mpr (by simpa using h)⟩
          · exact Or.inr ⟨part0, List.mem_cons_of_mem _ hm, hn, hd⟩
        · rintro (h | ⟨part0, hm, hn, hd⟩)
          · exact Or.inl (Or.inl h)
          · rcases List.mem_cons.mp hm with rfl | hm2
            · exact Or.inl (Or.inr (by simpa using hden.mp hd))
            · exact Or.inr ⟨part0, hm2, hn, hd⟩



/-- C9 (amended): `parse_ports` raises exactly when some non-empty
stripped comma-separated part is neither a digit string nor two digit
strings joined by a dash, or when no denoted port lies in 1..65535;
otherwise it returns the non-empty, strictly increasing list of the
distinct denoted ports with out-of-range values dropped and reversed
ranges normalised. -/
theorem parse_ports_spec (s : List Char) :
    (isErr (parse_ports s) = true ↔
      (specBadPartExists s ∨ ¬ ∃ p, specDenotes s p ∧ 0 < p ∧ p ≤ 65535)) ∧
    ∀ l, parse_ports s = Except.ok l →
      l ≠ [] ∧ List.Sorted (· < ·) l ∧
        ∀ p, p ∈ l ↔ (specDenotes s p ∧ 0 < p ∧ p ≤ 65535) := by
  by_cases hbad : specBadPartExists s
  · obtain ⟨e, he⟩ : ∃ e, collectPorts (splitComma s) [] = Except.error e := by
      have h := collectPorts_error (splitComma s) [] hbad
      rcases hcp : collectPorts (splitComma s) [] with e | r
      · exact ⟨e, rfl⟩
      · rw [hcp] at h
        simp [isErr] at h
    constructor
    · simp only [parse_ports, he]
      simp [isErr, hbad]
    · intro l hl
      simp only [parse_ports, he] at hl
      simp at hl
  · have hgood : ∀ part0 ∈ splitComma s, pyStripChars part0 = [] ∨
        specGoodPart (pyStripChars part0) = true := by
      intro part0 hm
      by_cases h0 : pyStripChars part0 = []
      · exact Or.inl h0
      · by_cases h1 : specGoodPart (pyStripChars part0) = true
        · exact Or.inr h1
        · exact absurd ⟨part0, hm, h0, specGoodPart_false_of_not_true _ h1⟩ hbad
    obtain ⟨res, hres, hmem⟩ := collectPorts_ok (splitComma s) [] hgood
    have hmem2 : ∀ p, p ∈ res ↔ specDenotes s p := by
      intro p
      rw [hmem p]
      simp [specDenotes]
    by_cases hnil : ((res.dedup.insertionSort (· ≤ ·)).filter
        fun p => decide (0 < p ∧ p ≤ 65535)) = []
    · constructor
      · simp only [parse_ports, hres, if_pos hnil]
        constructor
        · intro _
          refine Or.inr ?_
          rintro ⟨p, hdp, hp1, hp2⟩
          have hpmem : p ∈ ((res.dedup.insertionSort (· ≤ ·)).filter
              fun p => decide (0 < p ∧ p ≤ 65535)) := by
            rw [List.mem_filter]
            refine ⟨?_, by simp [hp1, hp2]⟩
            rw [List.mem_insertionSort, List.mem_dedup]
            exact (hmem2 p).mpr hdp
          rw [hnil] at hpmem
          simp at hpmem
        · intro _
          rfl
      · intro l hl
        simp only [parse_ports, hres, if_pos hnil] at hl
        simp at hl
    · have hok : parse_ports s = Except.ok
          ((res.dedup.insertionSort (· ≤ ·)).filter
            fun p => decide (0 < p ∧ p ≤ 65535)) := by
        simp only [parse_ports, hres, if_neg hnil]
      constructor
      · rw [hok]
        simp only [isErr]
        constructor
        · intro h
          simp at h
        · rintro (h | h)
          · exact absurd h hbad
          · exfalso
            apply h
            obtain ⟨p, hp⟩ := List.exists_mem_of_ne_nil _ hnil
            rw [List.mem_filter] at hp
            obtain ⟨hp1, hp2⟩ := hp
            rw [List.mem_insertionSort, List.mem_dedup] at hp1
            have hpd := (hmem2 p).mp hp1
            have hpr : 0 < p ∧ p ≤ 65535 := by simpa using hp2
            exact ⟨p, hpd, hpr.1, hpr.2⟩
      · intro l hl
        rw [hok] at hl
        injection hl with hl2
        subst hl2
        refine ⟨hnil, ?_, ?_⟩
        · have hs1 : List.Sorted (· ≤ ·) (res.dedup.insertionSort (· ≤ ·)) :=
            List.sorted_insertionSort _ _
          have hn1 : (res.dedup.insertionSort (· ≤ ·)).Nodup :=
            ((List.perm_insertionSort _ _).nodup_iff).mpr (List.nodup_dedup res)
          have hs2 : List.Sorted (· < ·) (res.dedup.insertionSort (· ≤ ·)) :=
            List.Pairwise.imp (fun hab => lt_of_le_of_ne hab.1 hab.2) (hs1.and hn1)
          exact hs2.sublist (List.filter_sublist _)
        · intro p
          rw [List.mem_filter, List.mem_insertionSort, List.mem_dedup, hmem2 p]
          constructor
          · rintro ⟨h1, h2⟩
            have h3 : 0 < p ∧ p ≤ 65535 := by simpa using h2
            exact ⟨h1, h3.1, h3.2⟩
          · rintro ⟨h1, h2, h3⟩
            exact ⟨h1, by simp [h2, h3]⟩

/-- C9 witness: a reversed range, duplicates and out-of-range values. -/
theorem parse_ports_spec_witness :
    parse_ports "25-20,0,70000,80,80".toList =
      Except.ok [20, 21, 22, 23, 24, 25, 80] ∧
    ([20, 21, 22, 23, 24, 25, 80] ≠ ([] : List Nat) ∧
      List.Sorted (· < ·) [20, 21, 22, 23, 24, 25, 80] ∧
      ∀ p, p ∈ [20, 21, 22, 23, 24, 25, 80] ↔
        (specDenotes "25-20,0,70000,80,80".toList p ∧ 0 < p ∧ p ≤ 65535)) :=
  ⟨rfl, (parse_ports_spec "25-20,0,70000,80,80".toList).2 _ rfl⟩

/-! ## Claims about `parse_ports` and `check_password_strength` -/

/-- C9 as stated is false on the code: `"80,"` has the comma-separated
part `""`, which is neither a non-negative integer nor a dash-joined pair
of them, yet `parse_ports` does not raise — empty parts are silently
skipped. -/
theorem parse_ports_accepts_trailing_comma :
    ([] ∈ splitComma "80,".toList ∧ pyIsDigit [] = false ∧
      ([] : List Char).contains '-' = false) ∧
    parse_ports "80,".toList = .ok [80] := by
  constructor
  · exact ⟨by decide, by decide, by decide⟩
  · rfl

/-- C10: any password with all four character classes rates "Strong" even
below 8 characters — shortness only withholds the length point and adds
the "Password too short (<8)." feedback, it never caps the rating — and in
general the rating is "Weak" iff the score is at most 2, "Moderate" iff it
is 3, and "Strong" otherwise. -/
theorem strength_rating (p : List Char)
    (hu : hasUpper p = true) (hl : hasLower p = true)
    (hd : hasDigit p = true) (hs : hasSymbol p = true) :
    ((check_password_strength p).1 = "Strong" ∧
      (p.length < 8 → "Password too short (<8)." ∈ (check_password_strength p).2)) ∧
    ∀ q : List Char, (check_password_strength q).1 =
      (if pwScore q ≤ 2 then "Weak" else if pwScore q = 3 then "Moderate"
        else "Strong") := by
  have hsc : 4 ≤ pwScore p := by
    simp only [pwScore, hu, hl, hd, hs, if_true]
    split_ifs <;> omega
  refine ⟨⟨?_, ?_⟩, fun q => rfl⟩
  · show (if pwScore p ≤ 2 then "Weak" else if pwScore p = 3 then "Moderate"
      else "Strong") = "Strong"
    rw [if_neg (by omega), if_neg (by omega)]
  · intro hlen
    simp only [check_password_strength, if_pos hlen]
    simp

/-- C10 witness: the 4-character password "Aa1!" rates "Strong" and gets
the shortness feedback. -/
theorem strength_rating_witness :
    ((check_password_strength "Aa1!".toList).1 = "Strong" ∧
      ("Aa1!".toList.length < 8 →
        "Password too short (<8)." ∈ (check_password_strength "Aa1!".toList).2)) ∧
    ∀ q : List Char, (check_password_strength q).1 =
      (if pwScore q ≤ 2 then "Weak" else if pwScore q = 3 then "Moderate"
        else "Strong") :=
  strength_rating "Aa1!".toList (by decide) (by decide) (by decide) (by decide)


end SecurityAutomation
